import Mathlib

/-!
Shallow embedding of the glmrl activity-reconstruction and aggregation pipeline.

The definitions below are translated from the Go sources of the repository:
the data model of package git (pkg/git), the pagination aggregator of
package misc (pkg/misc), the Gitlab engine's history assembly and thread
reconstruction (pkg/git/engine), the service-level filter pipeline
(pkg/service), and the list command's backend-filter validation (pkg/cmd).

Conventions of the embedding:
  - Go machine integers are modelled as Lean Int (they never overflow in the
    modelled code paths), timestamps (Go time.Time, compared with Before) as
    Nat.
  - Go string-typed enumerations (git.EventType, git.ObjectType, git.State)
    are modelled as String with named constants, exactly as in the source.
  - Go maps used as sets (map[K]struct with empty payload) are modelled as
    lists with insert-if-absent; Go map iteration order is unspecified, the
    list keeps insertion order, which is one admissible order.
  - Go fallible functions returning (T, error) are modelled with Except.
  - The Go linked comment chain (Comment with a Child pointer, nil for the
    tail) is the inductive Comment below with an Option child.
-/

namespace Glmrl

/-- git.User: a username identity. -/
structure User where
  username : String
deriving DecidableEq, Repr

/-- git.SystemUser: the distinguished system user. -/
def SystemUser : User := { username := "system" }

/-- git.EventType is a string type in the source; modelled as String. -/
abbrev EventType := String

/-- git.EventTypeThreadResolved. -/
def EventTypeThreadResolved : EventType := "resolved"

/-- git.EventTypeCommented. -/
def EventTypeCommented : EventType := "commented"

/-- git.EventTypeReplied. -/
def EventTypeReplied : EventType := "replied"

/-- git.EventTypeApproved. -/
def EventTypeApproved : EventType := "approved"

/-- git.EventTypeUnapproved. -/
def EventTypeUnapproved : EventType := "unapproved"

/-- git.ObjectType is a string type in the source; modelled as String. -/
abbrev ObjectType := String

/-- git.ObjectTypeComment. -/
def ObjectTypeComment : ObjectType := "comment"

/-- git.ObjectTypeCommit. -/
def ObjectTypeCommit : ObjectType := "commit"

/-- git.Event: a normalized, typed, timestamped activity fact.
Equality is full-field value equality, as for the Go struct. -/
structure Event where
  id : String
  actor : User
  timestamp : Nat
  type : EventType
  objectID : String
  objectType : ObjectType
deriving DecidableEq, Repr

/-- git.Comment: a thread node. The Go struct holds a Child pointer
(nil for the tail of the chain); here the child is an Option. -/
inductive Comment where
  | mk (author : User) (createdAt : Nat) (resolved : Bool) (child : Option Comment)

/-- Author field accessor of git.Comment. -/
def Comment.author : Comment → User
  | .mk a _ _ _ => a

/-- CreatedAt field accessor of git.Comment. -/
def Comment.createdAt : Comment → Nat
  | .mk _ t _ _ => t

/-- Resolved field accessor of git.Comment. -/
def Comment.resolved : Comment → Bool
  | .mk _ _ r _ => r

/-- Child field accessor of git.Comment. -/
def Comment.child : Comment → Option Comment
  | .mk _ _ _ c => c

/-- git.Comment.Last: returns the last comment in the thread
(follows the child chain to the tail). -/
def Comment.Last : Comment → Comment
  | .mk a t r none => .mk a t r none
  | .mk _ _ _ (some c) => c.Last

/-- git.Project: project metadata. -/
structure Project where
  id : String
  url : String
  name : String
  fullPath : String
deriving DecidableEq, Repr

/-- The approvals summary embedded in git.PullRequest (anonymous struct
in the source): requested reviewers, approvers, the reported
satisfies-rules flag and the required count. -/
structure Approvals where
  RequestedFrom : List User
  By : List User
  SatisfiesRules : Bool
  Required : Int

/-- git.PullRequest: one aggregated review item. -/
structure PullRequest where
  url : String
  number : Int
  project : Project
  title : String
  body : String
  author : User
  labels : List String
  sourceBranch : String
  targetBranch : String
  assignees : List User
  approvals : Approvals
  history : List Event
  threads : List Comment
  state : String
  closedAt : Nat
  createdAt : Nat

/-! misc package: the pagination aggregator. -/

/-- misc.ErrAtPage: an error tagged with the page number at which it occurred. -/
structure ErrAtPage (E : Type) where
  page : Int
  err : E
deriving DecidableEq, Repr

/-- misc.ListAll: repeatedly calls listFn on consecutive pages starting at
the given page, accumulating items, and stops at the first page that
returns zero items; a failure at any page aborts with ErrAtPage carrying
that page. The Go loop has no a-priori bound, so the embedding takes a
fuel argument and yields none when the fuel is exhausted before an empty
page is seen; alongside the accumulated items it returns the number of
calls to listFn that were made (an observation added for the proofs, not
present in the source's return value). -/
def ListAllFuel {T E : Type} (listFn : Int → Except E (List T)) :
    Nat → Int → Option (Except (ErrAtPage E) (List T × Nat))
  | 0, _ => none
  | fuel + 1, page =>
    match listFn page with
    | .error e => some (.error ⟨page, e⟩)
    | .ok [] => some (.ok ([], 1))
    | .ok nodes =>
      match ListAllFuel listFn fuel (page + 1) with
      | none => none
      | some (.error e) => some (.error e)
      | some (.ok (rest, calls)) => some (.ok (nodes ++ rest, calls + 1))

/-- misc.ListAll with the argument order of the source. -/
def ListAll {T E : Type} (startPage : Int) (listFn : Int → Except E (List T))
    (fuel : Nat) : Option (Except (ErrAtPage E) (List T × Nat)) :=
  ListAllFuel listFn fuel startPage

/-! engine package: the Gitlab engine's activity event assembler
(Gitlab.assembleHistory / Gitlab.transformNote / Gitlab.threadPos) and the
thread reconstructor (Gitlab.buildThreads). -/

/-- The fields of a raw gitlab note (gl.Note) that the engine reads:
id, author username, the system flag, the free-text body, the resolvable
and resolved markers, the resolver's username, creation and resolution
timestamps, and the optional position (new path and new line). -/
structure Note where
  id : Int
  author : String
  system : Bool
  body : String
  resolvable : Bool
  resolved : Bool
  resolvedBy : String
  createdAt : Nat
  resolvedAt : Nat
  position : Option (String × Int)
deriving DecidableEq, Repr

/-- Substring test on character lists: does the pattern occur as a
contiguous run? Executable model of Go strings.Contains. -/
def hasSubList (l pat : List Char) : Bool :=
  match l with
  | [] => pat.isEmpty
  | _ :: rest => pat.isPrefixOf l || hasSubList rest pat

/-- Go strings.Contains(s, pat). -/
def strContains (s pat : String) : Bool :=
  hasSubList s.toList pat.toList

/-- Gitlab.threadPos: the composite thread key "file path:line number";
a note without a position yields the empty key. -/
def threadPos (note : Note) : String :=
  match note.position with
  | none => ""
  | some (path, line) => path ++ ":" ++ toString line

/-- The body-pattern classification Gitlab.transformNote computes from the
note's free text (the switch over strings.Contains in the source). In the
source this assigned event type is dead: the note is either discarded
right after (when not resolvable) or the type is unconditionally
overwritten with commented/replied (when resolvable), so the assigned
approved/unapproved type never reaches an emitted event. It is kept as a
standalone definition so theorems can refer to what the switch matched. -/
def approvalBodyType (body : String) : Option EventType :=
  if strContains body "approved this merge request" then some EventTypeApproved
  else if strContains body "unapproved this merge request" then some EventTypeUnapproved
  else none

/-- Gitlab.transformNote: classifies one raw note given the set of thread
root keys seen so far. Returns none when the source returns
transformed=false (the note is discarded). Mirrors the source control
flow: the approvalBodyType assignment is omitted here because it is
provably dead (see approvalBodyType); a non-resolvable note is discarded;
a resolvable note becomes a commented event, downgraded to replied when
its key is already a known root; a system-authored note's actor is the
system user; a resolved note additionally synthesizes a thread-resolved
companion event with the derived id. -/
def transformNote (rootThreads : List String) (note : Note) : Option (List Event) :=
  let actor := if note.system then SystemUser else { username := note.author }
  if !note.resolvable then none
  else
    let pos := threadPos note
    let ty := if rootThreads.contains pos then EventTypeReplied else EventTypeCommented
    let ev : Event :=
      { id := toString note.id, actor := actor, timestamp := note.createdAt,
        type := ty, objectID := pos, objectType := ObjectTypeComment }
    if note.resolved then
      some [ev,
        { id := ev.id ++ "!resolved", actor := { username := note.resolvedBy },
          timestamp := note.resolvedAt, type := EventTypeThreadResolved,
          objectID := pos, objectType := ObjectTypeComment }]
    else
      some [ev]

/-- Insert an event into the event set (Go: evSet[ev] = struct) —
a list kept duplicate-free by inserting only absent events. -/
def insertEvent (evSet : List Event) (ev : Event) : List Event :=
  if evSet.contains ev then evSet else evSet ++ [ev]

/-- Insert a thread-root key into the running root set
(Go: rootThreads[ev.ObjectID] = struct). -/
def insertRoot (roots : List String) (k : String) : List String :=
  if roots.contains k then roots else roots ++ [k]

/-- The running state of Gitlab.assembleHistory: the deduplicating event
set and the set of thread-root keys seen so far. -/
structure AssembleState where
  evSet : List Event
  rootThreads : List String

/-- The body of the inner loop of Gitlab.assembleHistory: record one
emitted event into the set, and register its key as a thread root when
the event is a commented event. -/
def recordEvent (s : AssembleState) (ev : Event) : AssembleState :=
  { evSet := insertEvent s.evSet ev,
    rootThreads :=
      if ev.type = EventTypeCommented then insertRoot s.rootThreads ev.objectID
      else s.rootThreads }

/-- The body of the outer loop of Gitlab.assembleHistory: transform one
note and record its emitted events, skipping discarded notes. -/
def assembleStep (s : AssembleState) (note : Note) : AssembleState :=
  match transformNote s.rootThreads note with
  | none => s
  | some evs => evs.foldl recordEvent s

/-- Comparator for the initial sort of raw notes
(Go: sort.Slice with CreatedAt.Before; the Go sort is unstable, so any
order consistent with the timestamps is admissible — the embedding picks
the stable insertion sort on non-strict timestamp order). -/
def noteLe (a b : Note) : Prop := a.createdAt ≤ b.createdAt

instance : DecidableRel noteLe :=
  fun a b => inferInstanceAs (Decidable (a.createdAt ≤ b.createdAt))

/-- Comparator for the final sort of assembled events
(Go: sort.Slice with Timestamp.Before, same remark as for noteLe). -/
def eventLe (a b : Event) : Prop := a.timestamp ≤ b.timestamp

instance : DecidableRel eventLe :=
  fun a b => inferInstanceAs (Decidable (a.timestamp ≤ b.timestamp))

instance : IsTotal Event eventLe := ⟨fun a b => Nat.le_total a.timestamp b.timestamp⟩

instance : IsTrans Event eventLe := ⟨fun _ _ _ => Nat.le_trans⟩

/-- Gitlab.assembleHistory, after the notes have been listed from the API
(the transport call and its error path are outside the pure model): sort
the raw notes by creation time ascending, transform each note in order
while tracking thread roots and deduplicating events, then sort the
collected event set by timestamp ascending. -/
def assembleHistory (notes : List Note) : List Event :=
  let sorted := notes.insertionSort noteLe
  let st := sorted.foldl assembleStep ⟨[], []⟩
  st.evSet.insertionSort eventLe

/-! Thread reconstruction: Gitlab.buildThreads. -/

/-- git.Comment chain: walk to the tail and attach a new node
(Go: for thread.Child != nil walk, then set thread.Child). -/
def Comment.appendLast : Comment → Comment → Comment
  | .mk a t r none, n => .mk a t r (some n)
  | .mk a t r (some c), n => .mk a t r (some (c.appendLast n))

/-- Mark every node of the chain resolved, root through tail
(Go: thread.Resolved = true, then the walk setting each child's flag). -/
def Comment.resolveAll : Comment → Comment
  | .mk a t _ none => .mk a t true none
  | .mk a t _ (some c) => .mk a t true (some c.resolveAll)

/-- Decidable check that every node of a chain is resolved. -/
def Comment.allResolved : Comment → Bool
  | .mk _ _ r none => r
  | .mk _ _ r (some c) => r && c.allResolved

/-- The warning Gitlab.buildThreads logs when a reply or resolution
references an unknown thread root. -/
def warnMsg (k : String) : String := "[WARN] thread " ++ k ++ " not found"

/-- Store a chain under a key, replacing an existing binding
(Go: threads[ev.ObjectID] = ...; the association list keeps first-insertion
order, one admissible rendering of the Go map). -/
def setThread (m : List (String × Comment)) (k : String) (c : Comment) :
    List (String × Comment) :=
  match m with
  | [] => [(k, c)]
  | (k₀, c₀) :: rest => if k₀ = k then (k, c) :: rest else (k₀, c₀) :: setThread rest k c

/-- The state of Gitlab.buildThreads: the per-key chains and the warnings
logged so far (the source logs them; the model accumulates them so that
theorems can speak about recorded diagnostics). -/
structure ThreadsState where
  threads : List (String × Comment)
  diags : List String

/-- One step of Gitlab.buildThreads over the event sequence: a commented
event creates (or replaces) the chain root for its key; a replied event
appends a node at the tail of the existing chain, or records a diagnostic
and is skipped when the key is unknown; a thread-resolved event marks the
whole existing chain resolved, or records a diagnostic and is skipped;
any other event type is ignored. -/
def buildThreadsStep (s : ThreadsState) (ev : Event) : ThreadsState :=
  if ev.type = EventTypeCommented then
    { s with threads :=
        setThread s.threads ev.objectID (.mk ev.actor ev.timestamp false none) }
  else if ev.type = EventTypeReplied then
    match s.threads.lookup ev.objectID with
    | none => { s with diags := s.diags ++ [warnMsg ev.objectID] }
    | some c =>
      { s with threads :=
          setThread s.threads ev.objectID (c.appendLast (.mk ev.actor ev.timestamp false none)) }
  else if ev.type = EventTypeThreadResolved then
    match s.threads.lookup ev.objectID with
    | none => { s with diags := s.diags ++ [warnMsg ev.objectID] }
    | some c => { s with threads := setThread s.threads ev.objectID c.resolveAll }
  else s

/-- Gitlab.buildThreads as a fold over the (timestamp-ordered) event
sequence, exposing the full final state. -/
def buildThreadsState (history : List Event) : ThreadsState :=
  history.foldl buildThreadsStep ⟨[], []⟩

/-- Gitlab.buildThreads: the reconstructed chains (the values of the
threads map; the source returns them in unspecified map order, the model
in first-insertion order). -/
def buildThreads (history : List Event) : List Comment :=
  (buildThreadsState history).threads.map Prod.snd

/-! service package: the post-aggregation filter pipeline of
Service.ListPullRequests. -/

/-- misc.Filter: include/exclude lists. -/
structure MiscFilter (α : Type) where
  Include : List α
  Exclude : List α

/-- misc.Sort: ordering parameters (string-typed fields in the source). -/
structure MiscSort where
  By : String
  Order : String

/-- misc.Pagination. -/
structure Pagination where
  perPage : Int
  page : Int

/-- engine.ListPRsRequest: the backend-passable criteria. -/
structure EngineListPRsRequest where
  state : String
  labels : MiscFilter String
  sort : MiscSort
  pagination : Pagination

/-- service.ListPRsRequest: the engine criteria plus the post-aggregation
filter criteria. -/
structure ListPRsRequest where
  base : EngineListPRsRequest
  withoutMyUnresolvedThreads : Bool
  approvedByMe : Option Bool
  satisfiesApprovalRules : Option Bool
  authors : MiscFilter String
  projectPaths : MiscFilter String

/-- Whether the current user is among the given users, by username
(Go: lo.ContainsBy on Username equality). -/
def containsUser (users : List User) (me : User) : Bool :=
  users.any (fun u => u.username == me.username)

/-- The filter chain of Service.ListPullRequests, applied to the listed
pull requests after aggregation (the listing itself, tracing and logging
are outside this pure model). Each optional predicate, when set, narrows
the running list exactly as in the source, in the source's order:
approved-by-me, without-my-unresolved-threads, satisfies-approval-rules,
author include/exclude, project-path include/exclude. -/
def listPullRequestsFilters (me : User) (req : ListPRsRequest)
    (prs₀ : List PullRequest) : List PullRequest :=
  let prs := match req.approvedByMe with
    | none => prs₀
    | some b => prs₀.filter (fun pr => containsUser pr.approvals.By me == b)
  let prs := if req.withoutMyUnresolvedThreads then
      prs.filter (fun pr => !(pr.threads.any (fun thread =>
        (thread.author.username == me.username && !thread.resolved) &&
        (thread.Last.author.username == me.username))))
    else prs
  let prs := match req.satisfiesApprovalRules with
    | none => prs
    | some b => prs.filter (fun pr =>
        (containsUser pr.approvals.RequestedFrom me && !containsUser pr.approvals.By me) ||
        (pr.approvals.SatisfiesRules == b))
  let prs := if req.authors.Include.length > 0 then
      prs.filter (fun pr => req.authors.Include.contains pr.author.username)
    else prs
  let prs := if req.authors.Exclude.length > 0 then
      prs.filter (fun pr => !(req.authors.Exclude.contains pr.author.username))
    else prs
  let prs := if req.projectPaths.Include.length > 0 then
      prs.filter (fun pr => req.projectPaths.Include.contains pr.project.fullPath)
    else prs
  let prs := if req.projectPaths.Exclude.length > 0 then
      prs.filter (fun pr => !(req.projectPaths.Exclude.contains pr.project.fullPath))
    else prs
  prs

/-- A service request whose only set criterion is the
satisfies-approval-rules predicate, with the requested boolean. -/
def onlySatisfiesReq (b : Bool) : ListPRsRequest :=
  { base := { state := "", labels := ⟨[], []⟩, sort := ⟨"", ""⟩, pagination := ⟨0, 0⟩ },
    withoutMyUnresolvedThreads := false,
    approvedByMe := none,
    satisfiesApprovalRules := some b,
    authors := ⟨[], []⟩,
    projectPaths := ⟨[], []⟩ }

/-- A service request whose only set criterion is the
without-my-unresolved-threads predicate. -/
def onlyWithoutThreadsReq : ListPRsRequest :=
  { base := { state := "", labels := ⟨[], []⟩, sort := ⟨"", ""⟩, pagination := ⟨0, 0⟩ },
    withoutMyUnresolvedThreads := true,
    approvedByMe := none,
    satisfiesApprovalRules := none,
    authors := ⟨[], []⟩,
    projectPaths := ⟨[], []⟩ }

/-! cmd package: the list command's backend-filter validation
(List.validateBackendFilters) and the shape of List.Execute around it. -/

/-- cmd.FilterGroup: include/exclude string filters. -/
structure FilterGroup where
  Include : List String
  Exclude : List String

/-- cmd.FilterGroup.Empty. -/
def FilterGroup.Empty (g : FilterGroup) : Bool :=
  g.Include.length == 0 && g.Exclude.length == 0

/-- The fields of cmd.List that validateBackendFilters and the request
construction read. -/
structure ListCmd where
  state : String
  labels : FilterGroup
  authors : FilterGroup
  projectPaths : FilterGroup
  approvedByMe : String
  withoutMyUnresolvedThreads : Bool
  notEnoughApprovals : String
  sortBy : String
  sortOrder : String
  page : Int
  perPage : Int
  action : String

/-- The filters list cmd.List.validateBackendFilters builds: each
backend-side-reducible filter's name and whether it is present. -/
def backendFilters (c : ListCmd) : List (String × Bool) :=
  [("state", c.state != ""),
   ("labels", !c.labels.Empty),
   ("authors", !c.authors.Empty),
   ("pagination", c.page != 0 && c.perPage != 0)]

/-- cmd.List.validateBackendFilters: ok as soon as one filter is present
(the source returns nil from inside the loop), otherwise the error naming
the available filters. -/
def validateBackendFilters (c : ListCmd) : Except String Unit :=
  if (backendFilters c).any (fun f => f.2) then .ok ()
  else .error ("at least one backend-side filter must be present, available filters: "
    ++ toString ((backendFilters c).map (fun f => f.1)))

/-- cmd.List.Execute around the validation: the source builds the request,
then calls validateBackendFilters, and only on success prepares the
service (whose initialization performs the first remote call,
GetCurrentUser) and starts the TUI. The remote interaction of the
successful branch is abstracted as the trace it would produce; on a
validation failure the command returns the wrapped error having performed
no remote call, hence the empty trace. -/
def ListExecute (c : ListCmd) (remoteTrace : List String) :
    Except String Unit × List String :=
  match validateBackendFilters c with
  | .error e => (.error ("validate backend filters: " ++ e), [])
  | .ok _ => (.ok (), remoteTrace)

/-! Theorems. -/

/-- C9: misc.ListAll calls the fetch function on consecutive page numbers
beginning at the start page, stops at the first page that returns zero
items, and returns the concatenation of all earlier pages' items in
order, having made one fetch call per visited page (N nonempty pages give
N + 1 calls; pages of sizes 2, 2, 0 give 4 items and 3 calls, see the
witness). -/
theorem listAll_consecutive_pages {T E : Type} :
    ∀ (N : Nat) (startPage : Int) (listFn : Int → Except E (List T))
      (pages : Nat → List T) (fuel : Nat),
      (∀ k : Nat, k < N → listFn (startPage + k) = .ok (pages k)) →
      (∀ k : Nat, k < N → pages k ≠ []) →
      listFn (startPage + N) = .ok [] →
      N < fuel →
      ListAll startPage listFn fuel =
        some (.ok (((List.range N).map pages).flatten, N + 1))
  | 0, startPage, listFn, pages, fuel, _, _, hstop, hfuel => by
    obtain ⟨f, rfl⟩ : ∃ f, fuel = f + 1 := ⟨fuel - 1, by omega⟩
    have h0 : listFn startPage = .ok [] := by simpa using hstop
    simp [ListAll, ListAllFuel, h0]
  | N + 1, startPage, listFn, pages, fuel, hpages, hne, hstop, hfuel => by
    obtain ⟨f, rfl⟩ : ∃ f, fuel = f + 1 := ⟨fuel - 1, by omega⟩
    have h0 : listFn startPage = .ok (pages 0) := by
      have h := hpages 0 (by omega)
      simpa using h
    obtain ⟨x, xs, hx⟩ : ∃ x xs, pages 0 = x :: xs := by
      cases hp : pages 0 with
      | nil => exact absurd hp (hne 0 (by omega))
      | cons x xs => exact ⟨x, xs, rfl⟩
    have ih := listAll_consecutive_pages N (startPage + 1) listFn
      (fun k => pages (k + 1)) f
      (fun k hk => by
        have h := hpages (k + 1) (by omega)
        rw [← h]
        congr 1
        push_cast
        ring)
      (fun k hk => hne (k + 1) (by omega))
      (by
        rw [← hstop]
        congr 1
        push_cast
        ring)
      (by omega)
    simp only [ListAll] at ih ⊢
    simp only [ListAllFuel, h0, hx]
    rw [← hx, ih]
    simp [List.range_succ_eq_map, List.map_map, Function.comp_def, hx]

/-- Page contents for the pagination witness: sizes 2, 2, 0. -/
def pagesW : Nat → List Nat :=
  fun k => if k = 0 then [10, 11] else if k = 1 then [12, 13] else []

/-- Fetch function for the pagination witness: pages 1 and 2 hold two
items each, every later page is empty. -/
def fetchW : Int → Except String (List Nat) :=
  fun p => if p = 1 then .ok [10, 11] else if p = 2 then .ok [12, 13] else .ok []

/-- Witness for C9: for pages of sizes 2, 2, 0 the aggregator returns
exactly the 4 items and makes exactly 3 fetch calls. -/
theorem listAll_consecutive_pages_witness :
    (∀ k : Nat, k < 2 → fetchW (1 + k) = .ok (pagesW k)) ∧
    (∀ k : Nat, k < 2 → pagesW k ≠ []) ∧
    fetchW (1 + (2 : Nat)) = .ok [] ∧
    ListAll 1 fetchW 5 = some (.ok ([10, 11, 12, 13], 3)) := by
  have h1 : ∀ k : Nat, k < 2 → fetchW (1 + k) = .ok (pagesW k) := by
    intro k hk
    interval_cases k <;> rfl
  have h2 : ∀ k : Nat, k < 2 → pagesW k ≠ [] := by
    intro k hk
    interval_cases k <;> simp [pagesW]
  have h3 : fetchW (1 + (2 : Nat)) = .ok [] := by rfl
  refine ⟨h1, h2, h3, ?_⟩
  have h := listAll_consecutive_pages 2 1 fetchW pagesW 5 h1 h2 h3 (by omega)
  simpa [pagesW] using h

/-- C10: a list query with no state filter, empty label and author
filters, and no full explicit pagination fails backend-filter validation;
the command returns the wrapped validation error and performs no remote
call (the remote trace of the returned execution is empty, whatever the
post-validation path would have produced). -/
theorem validate_fails_before_remote (c : ListCmd) (remoteTrace : List String)
    (hstate : c.state = "")
    (hlabels : c.labels.Include = [] ∧ c.labels.Exclude = [])
    (hauthors : c.authors.Include = [] ∧ c.authors.Exclude = [])
    (hpag : c.page = 0 ∨ c.perPage = 0) :
    (∃ msg, validateBackendFilters c = .error msg ∧
      ListExecute c remoteTrace = (.error ("validate backend filters: " ++ msg), [])) := by
  have hany : (backendFilters c).any (fun f => f.2) = false := by
    simp only [backendFilters, FilterGroup.Empty, List.any_cons, List.any_nil]
    obtain ⟨hli, hle⟩ := hlabels
    obtain ⟨hai, hae⟩ := hauthors
    rcases hpag with hp | hp <;>
      simp [hstate, hli, hle, hai, hae, hp]
  refine ⟨"at least one backend-side filter must be present, available filters: "
      ++ toString ((backendFilters c).map (fun f => f.1)), ?_, ?_⟩
  · simp [validateBackendFilters, hany]
  · simp [ListExecute, validateBackendFilters, hany]

/-- A list command with every backend-side-reducible filter absent. -/
def emptyListCmd : ListCmd :=
  { state := "", labels := ⟨[], []⟩, authors := ⟨[], []⟩, projectPaths := ⟨[], []⟩,
    approvedByMe := "", withoutMyUnresolvedThreads := false, notEnoughApprovals := "",
    sortBy := "created", sortOrder := "desc", page := 0, perPage := 0, action := "open" }

/-- Witness for C10 at the fully-unfiltered command. -/
theorem validate_fails_before_remote_witness :
    emptyListCmd.state = "" ∧
    (emptyListCmd.page = 0 ∨ emptyListCmd.perPage = 0) ∧
    (∃ msg, validateBackendFilters emptyListCmd = .error msg ∧
      ListExecute emptyListCmd ["GetCurrentUser"] =
        (.error ("validate backend filters: " ++ msg), [])) :=
  ⟨rfl, Or.inl rfl,
    validate_fails_before_remote emptyListCmd ["GetCurrentUser"] rfl ⟨rfl, rfl⟩ ⟨rfl, rfl⟩
      (Or.inl rfl)⟩

/-- A raw gitlab approval note: the system posts it with the approval
phrase in the body, and it is not resolvable (it is not attached to a
reviewable position). -/
def approvalNote : Note :=
  { id := 100, author := "bob", system := true, body := "approved this merge request",
    resolvable := false, resolved := false, resolvedBy := "", createdAt := 5,
    resolvedAt := 0, position := none }

/-- The same raw approval note, marked resolvable. -/
def approvalNoteResolvable : Note :=
  { id := 100, author := "bob", system := true, body := "approved this merge request",
    resolvable := true, resolved := false, resolvedBy := "", createdAt := 5,
    resolvedAt := 0, position := none }

/-- C2 (code bug): the body of approvalNote matches the "approved this…"
pattern of the source's switch, yet transformNote discards the note
(transformed=false) because it is not resolvable, so history assembly
emits no approved event for it; and even a resolvable note with the same
body is emitted as a commented event, never as approved — the source's
assignment of the approved/unapproved event type is dead code, overwritten
or discarded on every path. -/
theorem approval_note_never_emits_approved :
    approvalBodyType approvalNote.body = some EventTypeApproved ∧
    transformNote [] approvalNote = none ∧
    assembleHistory [approvalNote] = [] ∧
    assembleHistory [approvalNoteResolvable] =
      [{ id := "100", actor := SystemUser, timestamp := 5, type := EventTypeCommented,
         objectID := "", objectType := ObjectTypeComment }] := by
  refine ⟨?_, ?_, ?_, ?_⟩ <;> rfl

/-- C3: with the satisfies-approval-rules predicate requested with value b
(and no other filter set), an item is kept by the service filter chain if
and only if its reported satisfies-rules flag equals b, or the current
user is among the item's requested reviewers (by username) and not among
its approvers. -/
theorem satisfies_rules_filter_iff (me : User) (b : Bool)
    (prs : List PullRequest) (pr : PullRequest) :
    pr ∈ listPullRequestsFilters me (onlySatisfiesReq b) prs ↔
      pr ∈ prs ∧ (pr.approvals.SatisfiesRules = b ∨
        ((∃ u ∈ pr.approvals.RequestedFrom, u.username = me.username) ∧
          ¬ ∃ u ∈ pr.approvals.By, u.username = me.username)) := by
  simp only [listPullRequestsFilters, onlySatisfiesReq, containsUser]
  simp [List.mem_filter, List.any_eq_true, Bool.or_eq_true, Bool.and_eq_true,
    Bool.not_eq_true', List.any_eq_false, beq_iff_eq, and_assoc]
  aesop

/-- The current user of the filter counterexamples and witnesses. -/
def meW : User := ⟨"alice"⟩

/-- An aggregated item whose reported satisfies-rules flag is true while
the current user is a requested reviewer who has not approved. -/
def prReqW : PullRequest :=
  { url := "https://gitlab.example.com/g/p/-/merge_requests/1", number := 1,
    project := { id := "1", url := "https://gitlab.example.com/g/p", name := "p", fullPath := "g/p" },
    title := "t", body := "", author := ⟨"bob"⟩, labels := [],
    sourceBranch := "feat", targetBranch := "main", assignees := [],
    approvals := { RequestedFrom := [⟨"alice"⟩], By := [], SatisfiesRules := true, Required := 1 },
    history := [], threads := [], state := "open", closedAt := 0, createdAt := 0 }

/-- C4 counterexample: for a query requesting satisfies-approval-rules =
true, an item with satisfies-rules flag true whose requested reviewers
include the current user (who has not approved) is KEPT by the filter
chain, not excluded as the claim states. -/
theorem satisfies_rules_requested_reviewer_kept_cex :
    prReqW.approvals.SatisfiesRules = true ∧
    (∃ u ∈ prReqW.approvals.RequestedFrom, u.username = meW.username) ∧
    (¬ ∃ u ∈ prReqW.approvals.By, u.username = meW.username) ∧
    listPullRequestsFilters meW (onlySatisfiesReq true) [prReqW] = [prReqW] := by
  refine ⟨rfl, ⟨⟨"alice"⟩, by simp [prReqW, meW]⟩, by simp [prReqW], ?_⟩
  rfl

/-- C4 amended: for a query requesting satisfies-approval-rules = true,
every listed item whose reported satisfies-rules flag is true but where
the current user is among the requested reviewers and not among the
approvers is INCLUDED in the result (the reviewer carve-out only ever
keeps such items; it never excludes them). -/
theorem satisfies_rules_requested_reviewer_kept (me : User)
    (prs : List PullRequest) (pr : PullRequest)
    (hmem : pr ∈ prs)
    (hflag : pr.approvals.SatisfiesRules = true)
    (hreq : ∃ u ∈ pr.approvals.RequestedFrom, u.username = me.username)
    (hnap : ¬ ∃ u ∈ pr.approvals.By, u.username = me.username) :
    pr ∈ listPullRequestsFilters me (onlySatisfiesReq true) prs :=
  (satisfies_rules_filter_iff me true prs pr).mpr ⟨hmem, Or.inl hflag⟩

/-- Witness for the amended C4 at the concrete item. -/
theorem satisfies_rules_requested_reviewer_kept_witness :
    prReqW ∈ [prReqW] ∧
    prReqW.approvals.SatisfiesRules = true ∧
    (∃ u ∈ prReqW.approvals.RequestedFrom, u.username = meW.username) ∧
    (¬ ∃ u ∈ prReqW.approvals.By, u.username = meW.username) ∧
    prReqW ∈ listPullRequestsFilters meW (onlySatisfiesReq true) [prReqW] := by
  have h1 : prReqW ∈ [prReqW] := by simp
  have h2 : prReqW.approvals.SatisfiesRules = true := rfl
  have h3 : ∃ u ∈ prReqW.approvals.RequestedFrom, u.username = meW.username :=
    ⟨⟨"alice"⟩, by simp [prReqW, meW]⟩
  have h4 : ¬ ∃ u ∈ prReqW.approvals.By, u.username = meW.username := by simp [prReqW]
  exact ⟨h1, h2, h3, h4,
    satisfies_rules_requested_reviewer_kept meW [prReqW] prReqW h1 h2 h3 h4⟩

/-- C5: with the without-my-unresolved-threads filter enabled (and no
other filter set), an item is kept by the service filter chain if and
only if it has no thread whose root author is the current user, which is
unresolved, and whose last comment (the tail of the reply chain) is
authored by the current user; equivalently, it is excluded exactly when
such a thread exists. -/
theorem without_my_unresolved_threads_iff (me : User)
    (prs : List PullRequest) (pr : PullRequest) :
    pr ∈ listPullRequestsFilters me onlyWithoutThreadsReq prs ↔
      pr ∈ prs ∧ ¬ ∃ t ∈ pr.threads,
        t.author.username = me.username ∧ t.resolved = false ∧
          t.Last.author.username = me.username := by
  simp only [listPullRequestsFilters, onlyWithoutThreadsReq]
  simp [List.mem_filter, List.any_eq_true, Bool.and_eq_true, Bool.not_eq_true',
    List.any_eq_false, beq_iff_eq, and_assoc]

/-- Inserting into the deduplicating event set preserves the absence of
duplicates. -/
theorem insertEvent_nodup (evSet : List Event) (ev : Event) (h : evSet.Nodup) :
    (insertEvent evSet ev).Nodup := by
  unfold insertEvent
  split
  · exact h
  · rename_i hc
    have hmem : ev ∉ evSet := by simpa using hc
    simp [List.nodup_append, h, hmem]

/-- Recording a batch of emitted events preserves the absence of
duplicates in the event set. -/
theorem foldl_recordEvent_nodup (evs : List Event) :
    ∀ s : AssembleState, s.evSet.Nodup → (evs.foldl recordEvent s).evSet.Nodup := by
  induction evs with
  | nil => exact fun _ h => h
  | cons e rest ih =>
    intro s h
    exact ih _ (insertEvent_nodup _ _ h)

/-- Processing notes preserves the absence of duplicates in the event
set. -/
theorem foldl_assembleStep_nodup (notes : List Note) :
    ∀ s : AssembleState, s.evSet.Nodup → (notes.foldl assembleStep s).evSet.Nodup := by
  induction notes with
  | nil => exact fun _ h => h
  | cons n rest ih =>
    intro s h
    apply ih
    unfold assembleStep
    split
    · exact h
    · exact foldl_recordEvent_nodup _ _ h

/-- C1: for every list of raw activity records, the assembled event
sequence is sorted ascending (non-decreasing) in event timestamp and
contains no two value-equal events: the event set is deduplicated by
full-field equality before the final sort. -/
theorem assembleHistory_sorted_nodup (notes : List Note) :
    List.Sorted (fun a b : Event => a.timestamp ≤ b.timestamp) (assembleHistory notes) ∧
    (assembleHistory notes).Nodup := by
  constructor
  · exact List.sorted_insertionSort eventLe _
  · unfold assembleHistory
    exact (List.perm_insertionSort eventLe _).symm.nodup
      (foldl_assembleStep_nodup _ ⟨[], []⟩ List.nodup_nil)

/-- Marking a chain resolved resolves every node, root through tail. -/
theorem allResolved_resolveAll : ∀ c : Comment, c.resolveAll.allResolved = true
  | .mk _ _ _ none => rfl
  | .mk a t r (some c) => by
    simp only [Comment.resolveAll, Comment.allResolved, Bool.true_and]
    exact allResolved_resolveAll c

/-- Folding replied events at key k over a state holding exactly the one
chain at k keeps exactly one chain at k and records no diagnostic. -/
theorem foldl_replies_singleton (replies : List Event) (k : String) :
    ∀ (c : Comment) (d : List String),
      (∀ e ∈ replies, e.type = EventTypeReplied ∧ e.objectID = k) →
      ∃ c', replies.foldl buildThreadsStep ⟨[(k, c)], d⟩ = ⟨[(k, c')], d⟩ := by
  induction replies with
  | nil => exact fun c d _ => ⟨c, rfl⟩
  | cons e rest ih =>
    intro c d hall
    obtain ⟨hty, hid⟩ := hall e (List.mem_cons_self e rest)
    have hstep : buildThreadsStep ⟨[(k, c)], d⟩ e =
        ⟨[(k, c.appendLast (.mk e.actor e.timestamp false none))], d⟩ := by
      unfold buildThreadsStep
      rw [hty, hid]
      rw [if_neg (by decide), if_pos rfl]
      simp [List.lookup, setThread]
    rw [List.foldl_cons, hstep]
    exact ih _ d (fun e₀ he₀ => hall e₀ (List.mem_cons_of_mem _ he₀))

/-- C7: for an event sequence consisting of a commented root at key k,
followed by replied events at k, followed by a thread-resolved event at
k, thread reconstruction yields a chain registered at k in which every
node — root through tail — has its resolved flag set. -/
theorem thread_resolution_propagates (root res : Event) (replies : List Event) (k : String)
    (hroot : root.type = EventTypeCommented) (hrootid : root.objectID = k)
    (hreplies : ∀ e ∈ replies, e.type = EventTypeReplied ∧ e.objectID = k)
    (hres : res.type = EventTypeThreadResolved) (hresid : res.objectID = k) :
    ∃ c, List.lookup k (buildThreadsState (root :: (replies ++ [res]))).threads = some c ∧
      c.allResolved = true := by
  unfold buildThreadsState
  have h0 : buildThreadsStep ⟨[], []⟩ root =
      ⟨[(k, .mk root.actor root.timestamp false none)], []⟩ := by
    unfold buildThreadsStep
    rw [hroot, hrootid]
    rw [if_pos rfl]
    rfl
  rw [List.foldl_cons, h0, List.foldl_append]
  obtain ⟨c₀, hc₀⟩ := foldl_replies_singleton replies k _ [] hreplies
  rw [hc₀]
  have hstep : buildThreadsStep ⟨[(k, c₀)], []⟩ res = ⟨[(k, c₀.resolveAll)], []⟩ := by
    unfold buildThreadsStep
    rw [hres, hresid]
    rw [if_neg (by decide), if_neg (by decide), if_pos rfl]
    simp [List.lookup, setThread]
  rw [List.foldl_cons, List.foldl_nil, hstep]
  exact ⟨c₀.resolveAll, by simp [List.lookup], allResolved_resolveAll c₀⟩

/-- Concrete commented root for the C7 witness. -/
def rootW : Event :=
  { id := "1", actor := ⟨"x"⟩, timestamp := 1, type := EventTypeCommented,
    objectID := "a.go:10", objectType := ObjectTypeComment }

/-- Concrete replies for the C7 witness. -/
def repliesW : List Event :=
  [{ id := "2", actor := ⟨"y"⟩, timestamp := 2, type := EventTypeReplied,
     objectID := "a.go:10", objectType := ObjectTypeComment },
   { id := "3", actor := ⟨"x"⟩, timestamp := 3, type := EventTypeReplied,
     objectID := "a.go:10", objectType := ObjectTypeComment }]

/-- Concrete thread-resolved event for the C7 witness. -/
def resW : Event :=
  { id := "3!resolved", actor := ⟨"x"⟩, timestamp := 4, type := EventTypeThreadResolved,
    objectID := "a.go:10", objectType := ObjectTypeComment }

/-- Witness for C7: root R with replies A, B, then the resolution,
yields a chain at the key with every node resolved. -/
theorem thread_resolution_propagates_witness :
    rootW.type = EventTypeCommented ∧
    resW.type = EventTypeThreadResolved ∧
    (∀ e ∈ repliesW, e.type = EventTypeReplied ∧ e.objectID = "a.go:10") ∧
    ∃ c, List.lookup "a.go:10"
        (buildThreadsState (rootW :: (repliesW ++ [resW]))).threads = some c ∧
      c.allResolved = true := by
  refine ⟨rfl, rfl, ?_, ?_⟩
  · intro e he
    simp only [repliesW, List.mem_cons, List.not_mem_nil, or_false] at he
    rcases he with rfl | rfl <;> exact ⟨rfl, rfl⟩
  · exact thread_resolution_propagates rootW resW repliesW "a.go:10" rfl rfl
      (by intro e he
          simp only [repliesW, List.mem_cons, List.not_mem_nil, or_false] at he
          rcases he with rfl | rfl <;> exact ⟨rfl, rfl⟩)
      rfl rfl

/-- One buildThreads step only ever appends to the diagnostics, and the
threads it produces do not depend on the diagnostics accumulated so
far. -/
theorem buildThreadsStep_split (m : List (String × Comment)) (d : List String) (ev : Event) :
    buildThreadsStep ⟨m, d⟩ ev =
      ⟨(buildThreadsStep ⟨m, []⟩ ev).threads, d ++ (buildThreadsStep ⟨m, []⟩ ev).diags⟩ := by
  unfold buildThreadsStep
  dsimp only
  split
  · simp
  · split
    · rcases h : List.lookup ev.objectID m with _ | c <;> simp [h]
    · split
      · rcases h : List.lookup ev.objectID m with _ | c <;> simp [h]
      · simp

/-- A buildThreads fold only ever appends to the diagnostics, and the
threads it produces do not depend on the diagnostics accumulated so
far. -/
theorem foldl_buildThreadsStep_split (evs : List Event) :
    ∀ (m : List (String × Comment)) (d : List String),
      evs.foldl buildThreadsStep ⟨m, d⟩ =
        ⟨(evs.foldl buildThreadsStep ⟨m, []⟩).threads,
          d ++ (evs.foldl buildThreadsStep ⟨m, []⟩).diags⟩ := by
  induction evs with
  | nil => intro m d; simp
  | cons e rest ih =>
    intro m d
    rcases hs : buildThreadsStep ⟨m, []⟩ e with ⟨m₁, d₁⟩
    simp only [List.foldl_cons]
    rw [buildThreadsStep_split m d e, hs]
    simp only
    rw [ih m₁ (d ++ d₁), ih m₁ d₁]
    simp

/-- C8: a replied or thread-resolved event whose object-id matches no
existing thread root is non-fatal for reconstruction: the threads built
are exactly those built from the remaining events (the offending event
changes no thread), and the only effect is one extra recorded diagnostic
— the fold's diagnostics with the event are those without it, with the
warning inserted at the offending position. Reconstruction is total:
no error value exists in its result at all. -/
theorem unknown_root_nonfatal (pre post : List Event) (ev : Event)
    (hty : ev.type = EventTypeReplied ∨ ev.type = EventTypeThreadResolved)
    (habs : List.lookup ev.objectID (buildThreadsState pre).threads = none) :
    (buildThreadsState (pre ++ ev :: post)).threads =
      (buildThreadsState (pre ++ post)).threads ∧
    (buildThreadsState (pre ++ ev :: post)).diags =
      (buildThreadsState pre).diags ++ warnMsg ev.objectID ::
        (List.foldl buildThreadsStep ⟨(buildThreadsState pre).threads, []⟩ post).diags ∧
    (buildThreadsState (pre ++ post)).diags =
      (buildThreadsState pre).diags ++
        (List.foldl buildThreadsStep ⟨(buildThreadsState pre).threads, []⟩ post).diags := by
  unfold buildThreadsState at habs ⊢
  rw [List.foldl_append, List.foldl_append]
  rcases hS : List.foldl buildThreadsStep ⟨[], []⟩ pre with ⟨m₁, d₁⟩
  rw [hS] at habs
  dsimp only at habs ⊢
  have hstep : buildThreadsStep ⟨m₁, d₁⟩ ev = ⟨m₁, d₁ ++ [warnMsg ev.objectID]⟩ := by
    unfold buildThreadsStep
    rcases hty with h | h
    · rw [h, if_neg (by decide), if_pos rfl]
      dsimp only
      rw [habs]
    · rw [h, if_neg (by decide), if_neg (by decide), if_pos rfl]
      dsimp only
      rw [habs]
  rw [List.foldl_cons, hstep,
    foldl_buildThreadsStep_split post m₁ (d₁ ++ [warnMsg ev.objectID]),
    foldl_buildThreadsStep_split post m₁ d₁]
  refine ⟨rfl, ?_, ?_⟩ <;> simp

/-- Prefix of events for the C8 witness: one commented root at a.go:10. -/
def cexPre : List Event :=
  [{ id := "1", actor := ⟨"x"⟩, timestamp := 1, type := EventTypeCommented,
     objectID := "a.go:10", objectType := ObjectTypeComment }]

/-- Offending event for the C8 witness: a reply at the unknown key
b.go:5. -/
def cexEv : Event :=
  { id := "9", actor := ⟨"y"⟩, timestamp := 2, type := EventTypeReplied,
    objectID := "b.go:5", objectType := ObjectTypeComment }

/-- Suffix of events for the C8 witness: a reply at the known key. -/
def cexPost : List Event :=
  [{ id := "2", actor := ⟨"y"⟩, timestamp := 3, type := EventTypeReplied,
     objectID := "a.go:10", objectType := ObjectTypeComment }]

/-- Witness for C8 at a concrete offending reply. -/
theorem unknown_root_nonfatal_witness :
    (cexEv.type = EventTypeReplied ∨ cexEv.type = EventTypeThreadResolved) ∧
    List.lookup cexEv.objectID (buildThreadsState cexPre).threads = none ∧
    (buildThreadsState (cexPre ++ cexEv :: cexPost)).threads =
      (buildThreadsState (cexPre ++ cexPost)).threads ∧
    (buildThreadsState (cexPre ++ cexEv :: cexPost)).diags =
      (buildThreadsState cexPre).diags ++ warnMsg cexEv.objectID ::
        (List.foldl buildThreadsStep ⟨(buildThreadsState cexPre).threads, []⟩ cexPost).diags := by
  have h2 : List.lookup cexEv.objectID (buildThreadsState cexPre).threads = none := rfl
  obtain ⟨ht, hd, _⟩ := unknown_root_nonfatal cexPre cexPost cexEv (Or.inl rfl) h2
  exact ⟨Or.inl rfl, h2, ht, hd⟩

/-- Storing a chain under a key leaves lookups of every other key
unchanged and makes the stored chain the lookup result for that key. -/
theorem setThread_lookup (m : List (String × Comment)) (kset k : String) (c : Comment) :
    List.lookup k (setThread m kset c) =
      if k = kset then some c else List.lookup k m := by
  induction m with
  | nil =>
    by_cases h : k = kset
    · subst h
      simp [setThread]
    · simp [setThread, List.lookup_cons, beq_false_of_ne h, h]
  | cons p rest ih =>
    obtain ⟨k₀, c₀⟩ := p
    simp only [setThread]
    by_cases h₀ : k₀ = kset
    · subst h₀
      rw [if_pos rfl]
      by_cases h : k = k₀
      · subst h
        simp
      · simp [List.lookup_cons, beq_false_of_ne h, h]
    · rw [if_neg h₀]
      by_cases h : k = k₀
      · subst h
        rw [if_neg h₀]
        simp [List.lookup_cons]
      · simp [List.lookup_cons, beq_false_of_ne h, ih]

/-- A key with a registered chain after a buildThreads fold either had one
in the starting state or was registered by a commented event of the
folded sequence. -/
theorem lookup_isSome_origin (evs : List Event) :
    ∀ (s : ThreadsState) (k : String),
      (List.lookup k (evs.foldl buildThreadsStep s).threads).isSome = true →
      (List.lookup k s.threads).isSome = true ∨
        ∃ e ∈ evs, e.type = EventTypeCommented ∧ e.objectID = k := by
  induction evs with
  | nil => exact fun _ _ h => Or.inl h
  | cons e rest ih =>
    intro s k h
    rw [List.foldl_cons] at h
    rcases ih (buildThreadsStep s e) k h with h' | ⟨e₀, he₀, ht₀, hid₀⟩
    · unfold buildThreadsStep at h'
      split at h'
      · rename_i hty
        dsimp only at h'
        rw [setThread_lookup] at h'
        by_cases hk : k = e.objectID
        · exact Or.inr ⟨e, List.mem_cons_self e rest, hty, hk.symm⟩
        · rw [if_neg hk] at h'
          exact Or.inl h'
      · split at h'
        · rcases hl : List.lookup e.objectID s.threads with _ | c
          · rw [hl] at h'
            exact Or.inl h'
          · rw [hl] at h'
            dsimp only at h'
            rw [setThread_lookup] at h'
            by_cases hk : k = e.objectID
            · subst hk
              exact Or.inl (by rw [hl]; rfl)
            · rw [if_neg hk] at h'
              exact Or.inl h'
        · split at h'
          · rcases hl : List.lookup e.objectID s.threads with _ | c
            · rw [hl] at h'
              exact Or.inl h'
            · rw [hl] at h'
              dsimp only at h'
              rw [setThread_lookup] at h'
              by_cases hk : k = e.objectID
              · subst hk
                exact Or.inl (by rw [hl]; rfl)
              · rw [if_neg hk] at h'
                exact Or.inl h'
          · exact Or.inl h'
    · exact Or.inr ⟨e₀, List.mem_cons_of_mem _ he₀, ht₀, hid₀⟩

/-- C6: in an assembled event sequence on which thread reconstruction
records no diagnostics, every replied event's object-id equals the
object-id of some commented event occurring strictly earlier in the
sequence. -/
theorem replied_has_earlier_commented (notes : List Note) (pre post : List Event) (ev : Event)
    (hsplit : assembleHistory notes = pre ++ ev :: post)
    (hty : ev.type = EventTypeReplied)
    (hclean : (buildThreadsState (assembleHistory notes)).diags = []) :
    ∃ e ∈ pre, e.type = EventTypeCommented ∧ e.objectID = ev.objectID := by
  rw [hsplit] at hclean
  unfold buildThreadsState at hclean
  rw [List.foldl_append, List.foldl_cons] at hclean
  rcases hS : List.foldl buildThreadsStep ⟨[], []⟩ pre with ⟨m₁, d₁⟩
  rw [hS] at hclean
  rcases hl : List.lookup ev.objectID m₁ with _ | c
  · have hstep : buildThreadsStep ⟨m₁, d₁⟩ ev = ⟨m₁, d₁ ++ [warnMsg ev.objectID]⟩ := by
      unfold buildThreadsStep
      rw [hty, if_neg (by decide), if_pos rfl]
      dsimp only
      rw [hl]
    rw [hstep, foldl_buildThreadsStep_split post m₁ (d₁ ++ [warnMsg ev.objectID])] at hclean
    simp at hclean
  · have hsome : (List.lookup ev.objectID
        (List.foldl buildThreadsStep ⟨[], []⟩ pre).threads).isSome = true := by
      rw [hS]
      dsimp only
      rw [hl]
      rfl
    rcases lookup_isSome_origin pre ⟨[], []⟩ ev.objectID hsome with h | h
    · simp [List.lookup] at h
    · exact h

/-- First raw note of the C6 witness: a root comment at a.go:10. -/
def wNote1 : Note :=
  { id := 1, author := "x", system := false, body := "first", resolvable := true,
    resolved := false, resolvedBy := "", createdAt := 1, resolvedAt := 0,
    position := some ("a.go", 10) }

/-- Second raw note of the C6 witness: a later note at the same position,
which the assembler classifies as a reply. -/
def wNote2 : Note :=
  { id := 2, author := "y", system := false, body := "second", resolvable := true,
    resolved := false, resolvedBy := "", createdAt := 2, resolvedAt := 0,
    position := some ("a.go", 10) }

/-- The commented event the witness notes assemble to. -/
def wEv1 : Event :=
  { id := "1", actor := ⟨"x"⟩, timestamp := 1, type := EventTypeCommented,
    objectID := "a.go:10", objectType := ObjectTypeComment }

/-- The replied event the witness notes assemble to. -/
def wEv2 : Event :=
  { id := "2", actor := ⟨"y"⟩, timestamp := 2, type := EventTypeReplied,
    objectID := "a.go:10", objectType := ObjectTypeComment }

/-- Witness for C6 at a concrete two-note history. -/
theorem replied_has_earlier_commented_witness :
    assembleHistory [wNote1, wNote2] = [wEv1] ++ wEv2 :: [] ∧
    wEv2.type = EventTypeReplied ∧
    (buildThreadsState (assembleHistory [wNote1, wNote2])).diags = [] ∧
    ∃ e ∈ [wEv1], e.type = EventTypeCommented ∧ e.objectID = wEv2.objectID := by
  refine ⟨rfl, rfl, rfl, ?_⟩
  exact replied_has_earlier_commented [wNote1, wNote2] [wEv1] [] wEv2 rfl rfl rfl

end Glmrl
